import Mathlib

/-!
Verification of the Chinese VAT invoice parser (`invoice_parser.py`).

The program is a pure text pipeline: regular-expression passes over the text
extracted from a PDF, a three-tier fallback for the total amount, a
candidate-ranking rule for the seller name, and deterministic filename
construction.  We embed each regular expression of the source as a
backtracking parser over `List Char`, written in continuation-passing style
so that the greedy / lazy priority order of the Python `re` engine is
reproduced exactly: every combinator tries its preferred alternative first
and falls back through `<|>` on failure of the continuation, which is
precisely the order a backtracking regex engine explores.

Character classes: Python `\d` and `\s` are modelled by their ASCII parts
(the invoice patterns only ever meet ASCII digits and whitespace), and `.`
without `re.DOTALL` excludes `'\n'` exactly as in Python.
-/

namespace InvoiceParser

/-! ### Character classes of the source regexes -/

/-- Python `\s` (ASCII part): space, tab, newline, carriage return, vertical tab, form feed. -/
def wsCls (c : Char) : Bool :=
  c == ' ' || c == '\t' || c == '\n' || c == '\r' || c == '\x0b' || c == '\x0c'

/-- Class `[:：]` used after labels (ASCII and fullwidth colon). -/
def colonCls (c : Char) : Bool := c == ':' || c == '：'

/-- Class `[\d\.]` of the amount patterns: digit or dot. -/
def digitDotCls (c : Char) : Bool := c.isDigit || c == '.'

/-- Class `[¥￥]` of the amount patterns: half- and fullwidth yen sign. -/
def currCls (c : Char) : Bool := c == '¥' || c == '￥'

/-- Class `.` under `re.DOTALL` (tier 1 of the amount search): any character. -/
def anyCls (_ : Char) : Bool := true

/-- Class `.` without `re.DOTALL` (tiers 2 and 3): any character except newline. -/
def dotCls (c : Char) : Bool := c != '\n'

/-- CJK range `[一-龥]` of the seller fallback pattern. -/
def cjkCls (c : Char) : Bool := 0x4e00 ≤ c.val && c.val ≤ 0x9fa5

/-- Class `[一-龥A-Za-z0-9\(\)（）]` capturing the name token after `名称`. -/
def nameCls (c : Char) : Bool :=
  cjkCls c || (('A' ≤ c && c ≤ 'Z') || ('a' ≤ c && c ≤ 'z')) || c.isDigit ||
    c == '(' || c == ')' || c == '（' || c == '）'

/-- Class `[开\s]` (and analogously for the other label characters). -/
def kaiCls (c : Char) : Bool := c == '开' || wsCls c
/-- Class `[票\s]`. -/
def piaoCls (c : Char) : Bool := c == '票' || wsCls c
/-- Class `[日\s]`. -/
def riCls (c : Char) : Bool := c == '日' || wsCls c
/-- Class `[期\s]`. -/
def qiCls (c : Char) : Bool := c == '期' || wsCls c
/-- Class `[价\s]`. -/
def jiaCls (c : Char) : Bool := c == '价' || wsCls c
/-- Class `[税\s]`. -/
def shuiCls (c : Char) : Bool := c == '税' || wsCls c
/-- Class `[合\s]`. -/
def heCls (c : Char) : Bool := c == '合' || wsCls c
/-- Class `[计\s]`. -/
def jiCls (c : Char) : Bool := c == '计' || wsCls c
/-- Class `[小\s]`. -/
def xiaoCls (c : Char) : Bool := c == '小' || wsCls c
/-- Class `[写\s]`. -/
def xieCls (c : Char) : Bool := c == '写' || wsCls c
/-- Class `[名\s]`. -/
def mingCls (c : Char) : Bool := c == '名' || wsCls c
/-- Class `[称\s]`. -/
def chengCls (c : Char) : Bool := c == '称' || wsCls c

/-! ### Backtracking combinators (CPS, priority order of the Python engine) -/

/-- Match a single mandatory character of class `p`, then continue with `k`. -/
def oneThen (p : Char → Bool) (k : List Char → Option α) : List Char → Option α
  | [] => none
  | c :: s => if p c then k s else none

/-- Greedy `p*` then `k`: prefer consuming another class character, backtrack to
fewer repetitions when the continuation fails. -/
def manyThen (p : Char → Bool) (k : List Char → Option α) : List Char → Option α
  | [] => k []
  | c :: s => if p c then (manyThen p k s <|> k (c :: s)) else k (c :: s)

/-- Greedy `p+` then `k`: one mandatory character, then greedy repetition. -/
def plusThen (p : Char → Bool) (k : List Char → Option α) : List Char → Option α :=
  oneThen p (manyThen p k)

/-- Lazy `p*?` then `k`: prefer the continuation, consume a class character only
when the continuation fails on every shorter prefix. -/
def lazyThen (p : Char → Bool) (k : List Char → Option α) : List Char → Option α
  | [] => k []
  | c :: s => k (c :: s) <|> (if p c then lazyThen p k s else none)

/-- Greedy `p?` then `k`: prefer consuming the optional character. -/
def optThen (p : Char → Bool) (k : List Char → Option α) : List Char → Option α
  | [] => k []
  | c :: s => if p c then (k s <|> k (c :: s)) else k (c :: s)

/-- Greedy capturing `p*` continued from an already captured reversed prefix
`acc`; the continuation receives the captured characters and the rest. -/
def capManyThen (p : Char → Bool) (k : List Char → List Char → Option α)
    (acc : List Char) : List Char → Option α
  | [] => k acc.reverse []
  | c :: s =>
    if p c then (capManyThen p k (c :: acc) s <|> k acc.reverse (c :: s))
    else k acc.reverse (c :: s)

/-- Greedy capturing `(p+)` then `k`: the captured group is passed to `k`. -/
def capPlusThen (p : Char → Bool) (k : List Char → List Char → Option α) :
    List Char → Option α
  | [] => none
  | c :: s => if p c then capManyThen p k [c] s else none

/-- Unanchored search, `re.search`: try a match at every position, leftmost
position first; only the first successful position is ever used. -/
def searchWith (m : List Char → Option α) : List Char → Option α
  | [] => m []
  | c :: s => m (c :: s) <|> searchWith m s

/-! ### Date extraction

Source regex (line 97):
`[开\s]+[票\s]+[日\s]+[期\s]+[:：]*\s*(\d{4}年\d{2}月\d{2}日)` applied with
`re.search` to the first-page text; the captured group is the date. -/

/-- Tail of the date pattern: the captured token `(\d{4}年\d{2}月\d{2}日)`.
Nothing follows the group in the pattern, so the remaining input is ignored. -/
def parseDateToken : List Char → Option String
  | d1 :: d2 :: d3 :: d4 :: y :: m1 :: m2 :: mo :: a1 :: a2 :: r :: _ =>
    if d1.isDigit && d2.isDigit && d3.isDigit && d4.isDigit && y == '年' &&
        m1.isDigit && m2.isDigit && mo == '月' && a1.isDigit && a2.isDigit && r == '日'
    then some (String.mk [d1, d2, d3, d4, y, m1, m2, mo, a1, a2, r])
    else none
  | _ => none

/-- Match of the whole date pattern at one position. -/
def matchDateAt : List Char → Option String :=
  plusThen kaiCls (plusThen piaoCls (plusThen riCls (plusThen qiCls
    (manyThen colonCls (manyThen wsCls parseDateToken)))))

/-- Date extractor on the first-page text (line 97-98). -/
def extractDate (firstPage : String) : Option String :=
  searchWith matchDateAt firstPage.toList

/-! ### Date reformatting in `main`

Source (lines 274-277): `re.match(r'(\d{4})年(\d{2})月(\d{2})日', date)`; on a
match the three groups are joined with dots, otherwise the raw date string is
used unchanged.  `re.match` anchors at the start only, so this is a prefix
parse: any suffix after the eleventh character is ignored. -/

/-- Prefix parse of `(\d{4})年(\d{2})月(\d{2})日` returning the three groups. -/
def parseDatePrefix : List Char → Option (List Char × List Char × List Char)
  | d1 :: d2 :: d3 :: d4 :: y :: m1 :: m2 :: mo :: a1 :: a2 :: r :: _ =>
    if d1.isDigit && d2.isDigit && d3.isDigit && d4.isDigit && y == '年' &&
        m1.isDigit && m2.isDigit && mo == '月' && a1.isDigit && a2.isDigit && r == '日'
    then some ([d1, d2, d3, d4], [m1, m2], [a1, a2])
    else none
  | _ => none

/-- Date reformatting of `main` (lines 274-277). -/
def formatDate (date : String) : String :=
  match parseDatePrefix date.toList with
  | some (yy, mm, dd) => String.mk yy ++ "." ++ String.mk mm ++ "." ++ String.mk dd
  | none => date

/-- Exact-shape test: the string is precisely `\d{4}年\d{2}月\d{2}日`, nothing
more (this is the shape the spec calls `YYYY年MM月DD日`). -/
def dateShaped (s : String) : Bool :=
  match s.toList with
  | [d1, d2, d3, d4, y, m1, m2, mo, a1, a2, r] =>
    d1.isDigit && d2.isDigit && d3.isDigit && d4.isDigit && y == '年' &&
      m1.isDigit && m2.isDigit && mo == '月' && a1.isDigit && a2.isDigit && r == '日'
  | _ => false

/-- Dotted form of an 11-character date token, by character positions. -/
def dotFormat (d : String) : String :=
  String.mk (d.toList.take 4) ++ "." ++ String.mk ((d.toList.drop 5).take 2) ++ "." ++
    String.mk ((d.toList.drop 8).take 2)

/-! ### Amount extraction (lines 105-122)

Three `re.search` calls tried in order; a later tier runs only when the
`amount` variable is still falsy.  In tier 1 the pattern is
`[价\s]+[税\s]+[合\s]+[计\s]+.*?([小\s]+[写\s]+).*?[¥￥]?\s*([\d\.]+)` with
`re.DOTALL` on the full text, and the code returns
`group(lastindex)`; both groups of the pattern are mandatory, so
`lastindex = 2` on every match and the returned group is the number.  Group 1
is therefore matched here without recording a capture. -/

/-- Shared innermost continuation of the amount tiers: emit the captured
number group; nothing follows it in any of the three patterns. -/
def emitTok (tok : List Char) (_ : List Char) : Option String := some (String.mk tok)

/-- Tier 1 pattern at one position (full text, `re.DOTALL`). -/
def matchTier1At : List Char → Option String :=
  plusThen jiaCls (plusThen shuiCls (plusThen heCls (plusThen jiCls
    (lazyThen anyCls (plusThen xiaoCls (plusThen xieCls
      (lazyThen anyCls (optThen currCls (manyThen wsCls
        (capPlusThen digitDotCls emitTok))))))))))

/-- Tier 2 pattern `[小\s]+[写\s]+.*?[¥￥]\s*([\d\.]+)` at one position
(first page, no DOTALL, currency symbol mandatory). -/
def matchTier2At : List Char → Option String :=
  plusThen xiaoCls (plusThen xieCls (lazyThen dotCls (oneThen currCls
    (manyThen wsCls (capPlusThen digitDotCls emitTok)))))

/-- Tier 3 pattern `[小\s]+[写\s]+.*?\s*([\d\.]+)` at one position
(first page, no DOTALL, no currency symbol). -/
def matchTier3At : List Char → Option String :=
  plusThen xiaoCls (plusThen xieCls (lazyThen dotCls
    (manyThen wsCls (capPlusThen digitDotCls emitTok))))

/-- Tier 1 search over the full concatenated text (line 108-110). -/
def searchTier1 (fullText : String) : Option String :=
  searchWith matchTier1At fullText.toList

/-- Tier 2 search over the first-page text (line 114-116). -/
def searchTier2 (firstPage : String) : Option String :=
  searchWith matchTier2At firstPage.toList

/-- Tier 3 search over the first-page text (line 120-122). -/
def searchTier3 (firstPage : String) : Option String :=
  searchWith matchTier3At firstPage.toList

/-- Python truthiness of an optional string: `None` and `""` are falsy. -/
def pyTruthy : Option String → Bool
  | none => false
  | some s => !(s == "")

/-- One fallback step of the amount cascade: `if not amount: ...; if m: amount = g`.
When the current amount is falsy and the next tier finds nothing, the current
value is kept (exactly as in the source, where `amount` is left unassigned). -/
def tierFallback (amount next : Option String) : Option String :=
  if pyTruthy amount then amount else
    if next.isSome then next else amount

/-- Amount extractor (lines 105-122): three tiers with first-success-wins. -/
def extractAmount (fullText firstPage : String) : Option String :=
  tierFallback (tierFallback (searchTier1 fullText) (searchTier2 firstPage))
    (searchTier3 firstPage)

/-! ### Substring containment (Python `in` on strings) -/

/-- List-level substring test. -/
def containsSubList (s sub : List Char) : Bool :=
  match s with
  | [] => sub.isEmpty
  | _ :: t => sub.isPrefixOf s || containsSubList t sub

/-- Python `sub in s` on strings. -/
def containsSub (s sub : String) : Bool := containsSubList s.toList sub.toList

/-- Python `s.split(sep)` for a nonempty separator: split at every
non-overlapping occurrence, scanning left to right, keeping empty parts.
The fuel only bounds the recursion; every step shortens the input, so
`length + 1` steps always suffice. -/
def splitSepAux (sep : List Char) : Nat → List Char → List (List Char)
  | _, [] => [[]]
  | 0, s => [s]
  | fuel + 1, c :: t =>
    if sep.isPrefixOf (c :: t) then
      [] :: splitSepAux sep fuel (List.drop sep.length (c :: t))
    else
      match splitSepAux sep fuel t with
      | [] => [[]]
      | l :: ls => (c :: l) :: ls

/-- Python `s.split(sep)` on strings. -/
def pySplit (s sep : String) : List String :=
  (splitSepAux sep.toList (s.toList.length + 1) s.toList).map String.mk

/-! ### Seller extraction (lines 128-169) -/

/-- Match of `[名\s]+[称\s]+[:：]*\s*([一-龥A-Za-z0-9\(\)（）]+)` at one
position, returning the captured token and the rest of the input after the
whole match (the group is last, so the match ends with it). -/
def matchNameAt : List Char → Option (String × List Char) :=
  plusThen mingCls (plusThen chengCls (manyThen colonCls (manyThen wsCls
    (capPlusThen nameCls (fun tok rest => some (String.mk tok, rest))))))

/-- Scan of `re.findall` (line 133): repeatedly find the leftmost match and
resume after its end (non-overlapping).  The fuel only bounds the recursion;
every step shortens the input, so `length + 1` steps always suffice. -/
def findAllNamesAux : Nat → List Char → List String
  | 0, _ => []
  | _ + 1, [] => []
  | fuel + 1, c :: s =>
    match matchNameAt (c :: s) with
    | some (tok, rest) => tok :: findAllNamesAux fuel rest
    | none => findAllNamesAux fuel s

/-- All captured `名称` tokens of the first-page text, in match order. -/
def findAllNames (s : List Char) : List String := findAllNamesAux (s.length + 1) s

/-- Table-header keywords that disqualify a candidate (line 141). -/
def ignored_keywords : List String :=
  ["规格", "型号", "项目", "货物", "劳务", "服务", "单位", "数量", "单价", "金额", "税率", "税额"]

/-- Company-entity suffixes that mark a likely seller (line 149). -/
def company_suffixes : List String := ["公司", "店", "行", "厂", "局", "部"]

/-- Candidate loop of lines 143-146: keep the matches containing none of the
ignored keywords, in order. -/
def buildCandidates : List String → List String
  | [] => []
  | m :: ms =>
    if ignored_keywords.any (fun k => containsSub m k) then buildCandidates ms
    else m :: buildCandidates ms

/-- Selection among the `名称` matches (lines 135-156): filter out header
keywords, then prefer the last company-suffixed candidate, else the last
candidate of any kind. -/
def selectSellerFromMatches (ms : List String) : Option String :=
  if ms.isEmpty then none
  else
    let candidates := buildCandidates ms
    let company := candidates.filter (fun c => company_suffixes.any (fun s => containsSub c s))
    if !company.isEmpty then company.getLast?
    else if !candidates.isEmpty then candidates.getLast?
    else none

/-- Removal of all whitespace, `re.sub(r'\s+', '', text)` (line 160). -/
def stripAllWs (s : String) : String := String.mk (s.toList.filter (fun c => !wsCls c))

/-- Match of the fallback pattern `名称[:：]?([一-龥]+)` at one position. -/
def matchFallbackNameAt : List Char → Option String :=
  oneThen (fun c => c == '名') (oneThen (fun c => c == '称')
    (optThen colonCls (capPlusThen cjkCls emitTok)))

/-- Fallback of lines 159-169: strip whitespace, split on `销售方`, and search
the last part for a `名称` label followed by CJK characters. -/
def sellerFallback (fp : String) : Option String :=
  if containsSub (stripAllWs fp) "销售方" then
    searchWith matchFallbackNameAt ((pySplit (stripAllWs fp) "销售方").getLastD "").toList
  else none

/-- Seller extractor (lines 128-169).  The captured groups are never empty, so
Python truthiness of `seller` coincides with `Option.isSome` here. -/
def extractSeller (fp : String) : Option String :=
  match selectSellerFromMatches (findAllNames fp.toList) with
  | some s => some s
  | none => sellerFallback fp

/-! ### Items-section extraction (lines 177-215) -/

/-- Header test of line 189: `名称` together with a column keyword. -/
def isHeaderA (l : String) : Bool :=
  containsSub l "名称" && (containsSub l "金额" || containsSub l "单价" || containsSub l "数量")

/-- Fallback header test of line 196: a `名称` line that is not a party line. -/
def isHeaderB (l : String) : Bool :=
  containsSub l "名称" && !containsSub l "购买方" && !containsSub l "销售方"

/-- Footer test of line 203 (`价税合计` contains `合计`, so the disjunct is
kept only for fidelity). -/
def isFooter (l : String) : Bool := containsSub l "合计" || containsSub l "价税合计"

/-- Indexed first-match loop, the shape of the source's `for i, line in
enumerate(lines)` loops with `break`. -/
def findLineIdx (p : String → Bool) : Nat → List String → Option Nat
  | _, [] => none
  | i, l :: ls => if p l then some i else findLineIdx p (i + 1) ls

/-- Items-section extractor (lines 177-215). -/
def extract_items_section (text : String) : String :=
  match
    (match findLineIdx isHeaderA 0 (pySplit text "\n") with
     | some i => some i
     | none => findLineIdx isHeaderB 0 (pySplit text "\n")) with
  | none => text
  | some i =>
    match findLineIdx isFooter (i + 1) ((pySplit text "\n").drop (i + 1)) with
    | some j => String.intercalate "\n" (((pySplit text "\n").drop (i + 1)).take (j - (i + 1)))
    | none => String.intercalate "\n" ((pySplit text "\n").drop (i + 1))

/-! ### Filename construction and sanitization (lines 279-281, 66) -/

/-- Characters of the class `[<>:"/\\|?*]` removed from the final filename. -/
def forbiddenFileChars : List Char := ['<', '>', ':', '"', '/', '\\', '|', '?', '*']

/-- Sanitization `re.sub(r'[<>:"/\\|?*]', '', name)` of line 281: a
single-character class with empty replacement removes every occurrence. -/
def sanitizeFilename (s : String) : String :=
  String.mk (s.toList.filter (fun c => !forbiddenFileChars.contains c))

/-- Filename assembly and sanitization of lines 279-281. -/
def buildFilename (formattedDate middle amount : String) : String :=
  sanitizeFilename (formattedDate ++ "-" ++ middle ++ "-" ++ amount ++ ".pdf")

/-- Summary sanitization `re.sub(r'[<>:"/\\|?*\n\r]', '', summary)`, the final
cleanup step (line 66) of `get_invoice_summary`; this class additionally
contains newline and carriage return. -/
def sanitize_summary (s : String) : String :=
  String.mk (s.toList.filter (fun c => !(forbiddenFileChars.contains c || c == '\n' || c == '\r')))

/-! ### Base-URL normalization (lines 16-23 of `get_invoice_summary`) -/

/-- Python `s.endswith(suffix)`. -/
def pyEndsWith (s suffix : String) : Bool := suffix.toList.isSuffixOf s.toList

/-- Python `s.rstrip('/')`: remove every trailing slash. -/
def rstripSlashes (s : String) : String :=
  String.mk (s.toList.reverse.dropWhile (fun c => c == '/')).reverse

/-- Number of `/` characters in the string, `s.count('/')`. -/
def countSlashes (s : String) : Nat := s.toList.count '/'

/-- Base-URL normalization (lines 18-21): on a truthy URL not ending in `/v1`
or `/v1/` and holding at most three slashes, append `/v1` after stripping
trailing slashes; otherwise pass the URL through unchanged. -/
def normalize_base_url (u : String) : String :=
  if pyTruthy (some u) && !pyEndsWith u "/v1" && !pyEndsWith u "/v1/" then
    if countSlashes u ≤ 3 then rstripSlashes u ++ "/v1" else u
  else u

/-! ### Per-file pipeline of `main` (lines 244-293)

The PDF library is the external collaborator: a `PdfInput` is `none` when
`pdfplumber.open`/text extraction raised (the `except` of line 173 catches
it), and otherwise the list of per-page `extract_text()` results, each of
which may itself be `None`.  The LLM summary is likewise an oracle value. -/

/-- Result of opening one PDF: `none` models a raised-and-caught library
exception, `some pages` the per-page text extraction results. -/
abbrev PdfInput := Option (List (Option String))

/-- Full-text accumulation of lines 86-90: concatenate every truthy page text
followed by a newline. -/
def buildFullText (pages : List (Option String)) : String :=
  String.join (((pages.filterMap id).filter (fun t => !(t == ""))).map (fun t => t ++ "\n"))

/-- Extraction entry point `extract_invoice_data` (lines 74-175): all-absent on
a library exception, a missing page list, or a falsy first-page text. -/
def extract_invoice_data :
    PdfInput → Option String × Option String × Option String × Option String
  | none => (none, none, none, none)
  | some pages =>
    match pages.head? with
    | none => (none, none, none, none)
    | some firstOpt =>
      match firstOpt with
      | none => (none, none, none, none)
      | some fp =>
        if fp == "" then (none, none, none, none)
        else
          (extractDate fp, extractSeller fp, extractAmount (buildFullText pages) fp,
            some (buildFullText pages))

/-- Outcome of `main` for a single file: a copy written under a new name, or a
skip with the diagnostic values `Date: .. Seller: .. Amount: ..` printed. -/
inductive FileAction where
  | written (name : String)
  | skipped (date seller amount : Option String)
  deriving DecidableEq

/-- Middle filename component (lines 251-269): the AI summary when an API key
is set, the full text is truthy and the summary is truthy; else the seller;
else the literal placeholder. -/
def middleFallback (seller : Option String) (apiKey : Bool)
    (fullText summary : Option String) : String :=
  match (if apiKey && pyTruthy fullText && pyTruthy summary then summary else seller) with
  | none => "Unknown"
  | some m => if m == "" then "Unknown" else m

/-- Per-file decision of `main` (lines 249-293): write a renamed copy exactly
when date and amount are truthy, otherwise skip with a diagnostic. -/
def processFile (date seller amount fullText : Option String) (apiKey : Bool)
    (summary : Option String) : FileAction :=
  if pyTruthy date && pyTruthy amount then
    FileAction.written
      (buildFilename (formatDate (date.getD "")) (middleFallback seller apiKey fullText summary)
        (amount.getD ""))
  else FileAction.skipped date seller amount

/-- Extraction followed by the per-file decision. -/
def pipelineProcess (pdf : PdfInput) (apiKey : Bool) (summary : Option String) : FileAction :=
  processFile (extract_invoice_data pdf).1 (extract_invoice_data pdf).2.1
    (extract_invoice_data pdf).2.2.1 (extract_invoice_data pdf).2.2.2 apiKey summary

/-- Batch loop of lines 244-293: each file is processed independently, in
order; its own summary oracle comes with it. -/
def runBatch (files : List (PdfInput × Option String)) (apiKey : Bool) : List FileAction :=
  files.map (fun pr => pipelineProcess pr.1 apiKey pr.2)

/-! ### Generic lemmas about the combinators -/

theorem orElse_eq_some {α : Type} {x y : Option α} {r : α} (h : (x <|> y) = some r) :
    x = some r ∨ y = some r := by
  cases x <;> simp_all

theorem orElse_isSome_left {α : Type} {x y : Option α} (h : x.isSome = true) :
    (x <|> y).isSome = true := by
  cases x <;> simp_all

theorem orElse_isSome_right {α : Type} {x y : Option α} (h : y.isSome = true) :
    (x <|> y).isSome = true := by
  cases x <;> simp_all

theorem oneThen_soundW {α : Type} {p : Char → Bool} {k : List Char → Option α}
    {s : List Char} {r : α} (h : oneThen p k s = some r) : ∃ v, k v = some r := by
  cases s with
  | nil => simp [oneThen] at h
  | cons c s =>
    simp only [oneThen] at h
    split at h
    · exact ⟨s, h⟩
    · simp at h

theorem manyThen_soundW {α : Type} {p : Char → Bool} {k : List Char → Option α} :
    ∀ {s : List Char} {r : α}, manyThen p k s = some r → ∃ v, k v = some r := by
  intro s
  induction s with
  | nil => exact fun h => ⟨[], h⟩
  | cons c s ih =>
    intro r h
    simp only [manyThen] at h
    split at h
    · rcases orElse_eq_some h with h1 | h2
      · exact ih h1
      · exact ⟨c :: s, h2⟩
    · exact ⟨c :: s, h⟩

theorem plusThen_soundW {α : Type} {p : Char → Bool} {k : List Char → Option α}
    {s : List Char} {r : α} (h : plusThen p k s = some r) : ∃ v, k v = some r := by
  simp only [plusThen] at h
  obtain ⟨v, hv⟩ := oneThen_soundW h
  exact manyThen_soundW hv

theorem lazyThen_soundW {α : Type} {p : Char → Bool} {k : List Char → Option α} :
    ∀ {s : List Char} {r : α}, lazyThen p k s = some r → ∃ v, k v = some r := by
  intro s
  induction s with
  | nil => exact fun h => ⟨[], h⟩
  | cons c s ih =>
    intro r h
    simp only [lazyThen] at h
    rcases orElse_eq_some h with h1 | h2
    · exact ⟨c :: s, h1⟩
    · split at h2
      · exact ih h2
      · simp at h2

theorem optThen_soundW {α : Type} {p : Char → Bool} {k : List Char → Option α}
    {s : List Char} {r : α} (h : optThen p k s = some r) : ∃ v, k v = some r := by
  cases s with
  | nil => exact ⟨[], h⟩
  | cons c s =>
    simp only [optThen] at h
    split at h
    · rcases orElse_eq_some h with h1 | h2
      · exact ⟨s, h1⟩
      · exact ⟨c :: s, h2⟩
    · exact ⟨c :: s, h⟩

theorem capManyThen_soundW {α : Type} {p : Char → Bool} {k : List Char → List Char → Option α} :
    ∀ {s : List Char} {acc : List Char} {r : α}, capManyThen p k acc s = some r →
      ∃ tok rest, acc.length ≤ tok.length ∧ k tok rest = some r := by
  intro s
  induction s with
  | nil => exact fun h => ⟨_, [], by simp, h⟩
  | cons c s ih =>
    intro acc r h
    simp only [capManyThen] at h
    split at h
    · rcases orElse_eq_some h with h1 | h2
      · obtain ⟨tok, rest, hlen, hk⟩ := ih h1
        refine ⟨tok, rest, ?_, hk⟩
        simp only [List.length_cons] at hlen
        omega
      · exact ⟨_, _, by simp, h2⟩
    · exact ⟨_, _, by simp, h⟩

theorem capPlusThen_soundW {α : Type} {p : Char → Bool} {k : List Char → List Char → Option α}
    {s : List Char} {r : α} (h : capPlusThen p k s = some r) :
    ∃ tok rest, tok ≠ [] ∧ k tok rest = some r := by
  cases s with
  | nil => simp [capPlusThen] at h
  | cons c s =>
    simp only [capPlusThen] at h
    split at h
    · obtain ⟨tok, rest, hlen, hk⟩ := capManyThen_soundW h
      refine ⟨tok, rest, ?_, hk⟩
      intro he
      simp [he] at hlen
    · simp at h

theorem searchWith_soundW {α : Type} {m : List Char → Option α} :
    ∀ {s : List Char} {r : α}, searchWith m s = some r → ∃ v, m v = some r := by
  intro s
  induction s with
  | nil => exact fun h => ⟨[], h⟩
  | cons c s ih =>
    intro r h
    simp only [searchWith] at h
    rcases orElse_eq_some h with h1 | h2
    · exact ⟨c :: s, h1⟩
    · exact ih h2

theorem manyThen_complete {α : Type} {p : Char → Bool} {k : List Char → Option α} :
    ∀ {u v : List Char}, (∀ x ∈ u, p x = true) → (k v).isSome = true →
      (manyThen p k (u ++ v)).isSome = true := by
  intro u
  induction u with
  | nil =>
    intro v _ hk
    cases v with
    | nil => simpa [manyThen]
    | cons c t =>
      simp only [List.nil_append, manyThen]
      split
      · exact orElse_isSome_right hk
      · exact hk
  | cons a u ih =>
    intro v hall hk
    have hpa : p a = true := hall a (by simp)
    simp only [List.cons_append, manyThen, hpa, if_pos]
    exact orElse_isSome_left (ih (fun x hx => hall x (by simp [hx])) hk)

theorem plusThen_complete {α : Type} {p : Char → Bool} {k : List Char → Option α}
    {u v : List Char} (hne : u ≠ []) (hall : ∀ x ∈ u, p x = true)
    (hk : (k v).isSome = true) : (plusThen p k (u ++ v)).isSome = true := by
  cases u with
  | nil => exact absurd rfl hne
  | cons a u =>
    have hpa : p a = true := hall a (by simp)
    simp only [List.cons_append, plusThen, oneThen, hpa, if_pos]
    exact manyThen_complete (fun x hx => hall x (by simp [hx])) hk

theorem searchWith_complete {α : Type} {m : List Char → Option α} :
    ∀ {s s' : List Char}, s' <:+ s → (m s').isSome = true →
      (searchWith m s).isSome = true := by
  intro s
  induction s with
  | nil =>
    intro s' hsuf hm
    obtain ⟨u, hu⟩ := hsuf
    have : s' = [] := by
      cases u with
      | nil => simpa using hu
      | cons x t => simp at hu
    subst this
    simpa [searchWith]
  | cons c s ih =>
    intro s' hsuf hm
    obtain ⟨u, hu⟩ := hsuf
    cases u with
    | nil =>
      simp only [List.nil_append] at hu
      subst hu
      simp only [searchWith]
      exact orElse_isSome_left hm
    | cons x t =>
      simp only [List.cons_append, List.cons.injEq] at hu
      simp only [searchWith]
      exact orElse_isSome_right (ih ⟨t, hu.2⟩ hm)

/-! ### Date-shape lemmas -/

/-- Claim-side description of a string that is followed by (begins with) a
`YYYY年MM月DD日` token: four digits, `年`, two digits, `月`, two digits, `日`,
then anything. -/
def dateTokenAt (g : List Char) : Prop :=
  ∃ d1 d2 d3 d4 m1 m2 a1 a2 rest,
    g = d1 :: d2 :: d3 :: d4 :: '年' :: m1 :: m2 :: '月' :: a1 :: a2 :: '日' :: rest ∧
      (d1.isDigit && d2.isDigit && d3.isDigit && d4.isDigit &&
        m1.isDigit && m2.isDigit && a1.isDigit && a2.isDigit) = true

/-- Claim-side description of a date string beginning with the exact shape. -/
def beginsWithDateShape (d : String) : Prop := dateTokenAt d.toList

theorem parseDateToken_complete {g : List Char} (h : dateTokenAt g) :
    (parseDateToken g).isSome = true := by
  obtain ⟨d1, d2, d3, d4, m1, m2, a1, a2, rest, hg, hd⟩ := h
  subst hg
  simp only [Bool.and_eq_true] at hd
  simp [parseDateToken, hd]

theorem parseDateToken_sound {g : List Char} {d : String} (h : parseDateToken g = some d) :
    dateShaped d = true ∧ (parseDatePrefix d.toList).isSome = true ∧
      formatDate d = dotFormat d := by
  unfold parseDateToken at h
  split at h
  · rename_i d1 d2 d3 d4 y m1 m2 mo a1 a2 r rest
    split at h
    · rename_i hcond
      injection h with h
      subst h
      simp only [Bool.and_eq_true] at hcond
      obtain ⟨⟨⟨⟨⟨⟨⟨⟨⟨⟨h1, h2⟩, h3⟩, h4⟩, hy⟩, h5⟩, h6⟩, hmo⟩, h7⟩, h8⟩, hr⟩ := hcond
      refine ⟨?_, ?_, ?_⟩
      · simp [dateShaped, String.toList, h1, h2, h3, h4, h5, h6, h7, h8, hy, hmo, hr]
      · simp [parseDatePrefix, String.toList, h1, h2, h3, h4, h5, h6, h7, h8, hy, hmo, hr]
      · simp [formatDate, parseDatePrefix, dotFormat, String.toList,
          h1, h2, h3, h4, h5, h6, h7, h8, hy, hmo, hr]
    · simp at h
  · simp at h

theorem dateShaped_format {d : String} (h : dateShaped d = true) :
    formatDate d = dotFormat d := by
  unfold dateShaped at h
  split at h
  · rename_i d1 d2 d3 d4 y m1 m2 mo a1 a2 r heq
    have heqd : d.data = [d1, d2, d3, d4, y, m1, m2, mo, a1, a2, r] := heq
    simp only [Bool.and_eq_true, beq_iff_eq] at h
    obtain ⟨⟨⟨⟨⟨⟨⟨⟨⟨⟨h1, h2⟩, h3⟩, h4⟩, hy⟩, h5⟩, h6⟩, hmo⟩, h7⟩, h8⟩, hr⟩ := h
    subst hy hmo hr
    simp only [formatDate, parseDatePrefix, dotFormat, String.toList, heqd]
    simp [h1, h2, h3, h4, h5, h6, h7, h8]
  · simp at h

theorem parseDatePrefix_sound {l : List Char} {x : List Char × List Char × List Char}
    (h : parseDatePrefix l = some x) : dateTokenAt l := by
  unfold parseDatePrefix at h
  split at h
  · rename_i d1 d2 d3 d4 y m1 m2 mo a1 a2 r rest
    split at h
    · rename_i hcond
      simp only [Bool.and_eq_true, beq_iff_eq] at hcond
      obtain ⟨⟨⟨⟨⟨⟨⟨⟨⟨⟨h1, h2⟩, h3⟩, h4⟩, hy⟩, h5⟩, h6⟩, hmo⟩, h7⟩, h8⟩, hr⟩ := hcond
      subst hy hmo hr
      exact ⟨d1, d2, d3, d4, m1, m2, a1, a2, rest, rfl,
        by simp [h1, h2, h3, h4, h5, h6, h7, h8]⟩
    · simp at h
  · simp at h

theorem formatDate_passthrough {d : String} (h : ¬ beginsWithDateShape d) :
    formatDate d = d := by
  cases hps : parseDatePrefix d.toList with
  | none =>
    have hps2 : parseDatePrefix d.data = none := hps
    simp [formatDate, hps2]
  | some x => exact absurd (parseDatePrefix_sound hps) h

theorem dateShaped_ne_empty {d : String} (h : dateShaped d = true) : d ≠ "" := by
  intro he
  subst he
  simp [dateShaped, String.toList] at h

/-- The label-then-date occurrence described by the claim: nonempty runs of the
four label classes, optional colons, optional whitespace, then a
`YYYY年MM月DD日` token. -/
def labelThenDate (s : List Char) : Prop :=
  ∃ a b c d e f g,
    s = a ++ (b ++ (c ++ (d ++ (e ++ (f ++ g))))) ∧
      a ≠ [] ∧ (∀ x ∈ a, kaiCls x = true) ∧
      b ≠ [] ∧ (∀ x ∈ b, piaoCls x = true) ∧
      c ≠ [] ∧ (∀ x ∈ c, riCls x = true) ∧
      d ≠ [] ∧ (∀ x ∈ d, qiCls x = true) ∧
      (∀ x ∈ e, colonCls x = true) ∧ (∀ x ∈ f, wsCls x = true) ∧
      dateTokenAt g

theorem matchDateAt_complete {s : List Char} (h : labelThenDate s) :
    (matchDateAt s).isSome = true := by
  obtain ⟨a, b, c, d, e, f, g, hs, ha, hak, hb, hbk, hc, hck, hd, hdk, hek, hfk, hg⟩ := h
  subst hs
  unfold matchDateAt
  refine plusThen_complete ha hak ?_
  refine plusThen_complete hb hbk ?_
  refine plusThen_complete hc hck ?_
  refine plusThen_complete hd hdk ?_
  refine manyThen_complete hek ?_
  refine manyThen_complete hfk ?_
  exact parseDateToken_complete hg

theorem extractDate_complete {text : String} {pre s : List Char}
    (htext : text.toList = pre ++ s) (h : labelThenDate s) :
    (extractDate text).isSome = true := by
  unfold extractDate
  rw [htext]
  exact searchWith_complete ⟨pre, rfl⟩ (matchDateAt_complete h)

theorem extractDate_sound {text : String} {d : String} (h : extractDate text = some d) :
    dateShaped d = true ∧ (parseDatePrefix d.toList).isSome = true ∧
      formatDate d = dotFormat d := by
  unfold extractDate at h
  obtain ⟨s1, h⟩ := searchWith_soundW h
  unfold matchDateAt at h
  obtain ⟨v1, h⟩ := plusThen_soundW h
  obtain ⟨v2, h⟩ := plusThen_soundW h
  obtain ⟨v3, h⟩ := plusThen_soundW h
  obtain ⟨v4, h⟩ := plusThen_soundW h
  obtain ⟨v5, h⟩ := manyThen_soundW h
  obtain ⟨v6, h⟩ := manyThen_soundW h
  exact parseDateToken_sound h

/-! ### Non-empty captures of the amount tiers -/

theorem capPlus_emit_ne_empty {p : Char → Bool} {s : List Char} {a : String}
    (h : capPlusThen p emitTok s = some a) : a ≠ "" := by
  obtain ⟨tok, rest, hne, hk⟩ := capPlusThen_soundW h
  simp only [emitTok, Option.some.injEq] at hk
  subst hk
  intro he
  have : tok = [] := by
    have := congrArg String.data he
    simpa using this
  exact hne this

theorem searchTier1_ne_empty {t a : String} (h : searchTier1 t = some a) : a ≠ "" := by
  unfold searchTier1 at h
  obtain ⟨s1, h⟩ := searchWith_soundW h
  unfold matchTier1At at h
  obtain ⟨v1, h⟩ := plusThen_soundW h
  obtain ⟨v2, h⟩ := plusThen_soundW h
  obtain ⟨v3, h⟩ := plusThen_soundW h
  obtain ⟨v4, h⟩ := plusThen_soundW h
  obtain ⟨v5, h⟩ := lazyThen_soundW h
  obtain ⟨v6, h⟩ := plusThen_soundW h
  obtain ⟨v7, h⟩ := plusThen_soundW h
  obtain ⟨v8, h⟩ := lazyThen_soundW h
  obtain ⟨v9, h⟩ := optThen_soundW h
  obtain ⟨v10, h⟩ := manyThen_soundW h
  exact capPlus_emit_ne_empty h

theorem searchTier2_ne_empty {t a : String} (h : searchTier2 t = some a) : a ≠ "" := by
  unfold searchTier2 at h
  obtain ⟨s1, h⟩ := searchWith_soundW h
  unfold matchTier2At at h
  obtain ⟨v1, h⟩ := plusThen_soundW h
  obtain ⟨v2, h⟩ := plusThen_soundW h
  obtain ⟨v3, h⟩ := lazyThen_soundW h
  obtain ⟨v4, h⟩ := oneThen_soundW h
  obtain ⟨v5, h⟩ := manyThen_soundW h
  exact capPlus_emit_ne_empty h

theorem searchTier3_ne_empty {t a : String} (h : searchTier3 t = some a) : a ≠ "" := by
  unfold searchTier3 at h
  obtain ⟨s1, h⟩ := searchWith_soundW h
  unfold matchTier3At at h
  obtain ⟨v1, h⟩ := plusThen_soundW h
  obtain ⟨v2, h⟩ := plusThen_soundW h
  obtain ⟨v3, h⟩ := lazyThen_soundW h
  obtain ⟨v4, h⟩ := manyThen_soundW h
  exact capPlus_emit_ne_empty h

theorem tierFallback_ne_empty {cur nxt : Option String} {a : String}
    (hc : ∀ x, cur = some x → x ≠ "") (hn : ∀ x, nxt = some x → x ≠ "")
    (h : tierFallback cur nxt = some a) : a ≠ "" := by
  unfold tierFallback at h
  split at h
  · exact hc a h
  · split at h
    · exact hn a h
    · exact hc a h

theorem extractAmount_ne_empty {ft fp a : String} (h : extractAmount ft fp = some a) :
    a ≠ "" := by
  unfold extractAmount at h
  refine tierFallback_ne_empty ?_ ?_ h
  · intro x hx
    refine tierFallback_ne_empty ?_ ?_ hx
    · exact fun y hy => searchTier1_ne_empty hy
    · exact fun y hy => searchTier2_ne_empty hy
  · exact fun y hy => searchTier3_ne_empty hy

/-! ### Structural lemmas for the seller selection and the items section -/

theorem buildCandidates_eq_filter (ms : List String) :
    buildCandidates ms =
      ms.filter (fun m => !(ignored_keywords.any (fun k => containsSub m k))) := by
  induction ms with
  | nil => rfl
  | cons m t ih =>
    by_cases hc : (ignored_keywords.any fun k => containsSub m k) = true
    · simp [buildCandidates, hc, ih]
    · simp only [Bool.not_eq_true] at hc
      simp [buildCandidates, hc, ih]

theorem findLineIdx_eq (p : String → Bool) :
    ∀ (ls : List String) (n : Nat), findLineIdx p n ls = List.findIdx? p ls n := by
  intro ls
  induction ls with
  | nil => intro n; rfl
  | cons l t ih =>
    intro n
    simp only [findLineIdx, List.findIdx?_cons]
    split <;> simp [ih]

/-! ### Extraction invariants feeding the output decision -/

theorem extractDate_ne_empty {fp d : String} (h : extractDate fp = some d) : d ≠ "" :=
  dateShaped_ne_empty (extractDate_sound h).1

theorem extract_date_field_ne_empty (pdf : PdfInput) :
    ∀ d, (extract_invoice_data pdf).1 = some d → d ≠ "" := by
  intro d h
  cases pdf with
  | none => simp [extract_invoice_data] at h
  | some pages =>
    simp only [extract_invoice_data] at h
    cases hh : pages.head? with
    | none => rw [hh] at h; simp at h
    | some firstOpt =>
      rw [hh] at h
      cases firstOpt with
      | none => simp at h
      | some fp =>
        by_cases he : (fp == "") = true
        · simp [he] at h
        · simp only [Bool.not_eq_true] at he
          simp only [he, Bool.false_eq_true, if_false] at h
          exact extractDate_ne_empty h

theorem extract_amount_field_ne_empty (pdf : PdfInput) :
    ∀ a, (extract_invoice_data pdf).2.2.1 = some a → a ≠ "" := by
  intro a h
  cases pdf with
  | none => simp [extract_invoice_data] at h
  | some pages =>
    simp only [extract_invoice_data] at h
    cases hh : pages.head? with
    | none => rw [hh] at h; simp at h
    | some firstOpt =>
      rw [hh] at h
      cases firstOpt with
      | none => simp at h
      | some fp =>
        by_cases he : (fp == "") = true
        · simp [he] at h
        · simp only [Bool.not_eq_true] at he
          simp only [he, Bool.false_eq_true, if_false] at h
          exact extractAmount_ne_empty h

/-! ### Claim theorems -/

/-- C1: the amount extractor evaluates its three tiers in order with
first-success-wins semantics: a tier-1 result on the full text is returned
as is; tier 2 (first page, mandatory currency symbol) is consulted only when
tier 1 produced no amount; tier 3 (first page, no currency symbol) only when
both earlier tiers failed, and then the result is exactly the tier-3 search
result.  Each `searchTierN` uses only the first match of its regex, and the
amount is the raw captured string. -/
theorem amount_three_tier_fallback (ft fp : String) :
    (∀ a, searchTier1 ft = some a → extractAmount ft fp = some a) ∧
    (searchTier1 ft = none → ∀ a, searchTier2 fp = some a → extractAmount ft fp = some a) ∧
    (searchTier1 ft = none → searchTier2 fp = none → extractAmount ft fp = searchTier3 fp) := by
  refine ⟨?_, ?_, ?_⟩
  · intro a h
    have hne := searchTier1_ne_empty h
    unfold extractAmount tierFallback
    rw [h]
    simp [pyTruthy, hne]
  · intro h1 a h2
    have hne := searchTier2_ne_empty h2
    unfold extractAmount tierFallback
    rw [h1, h2]
    simp [pyTruthy, hne]
  · intro h1 h2
    unfold extractAmount tierFallback
    rw [h1, h2]
    cases h3 : searchTier3 fp <;> simp [pyTruthy]

/-- Witness for C1: a concrete run in which tier 1 fails and the tier-2 result
is returned. -/
theorem amount_three_tier_fallback_witness :
    searchTier1 "" = none ∧ searchTier2 "小写¥5.00" = some "5.00" ∧
      extractAmount "" "小写¥5.00" = some "5.00" :=
  ⟨rfl, by decide, (amount_three_tier_fallback "" "小写¥5.00").2.1 rfl "5.00" (by decide)⟩

/-- C2: the seller selection first discards every `名称` match containing a
table-header keyword, then returns the last company-suffixed survivor when one
exists and the last survivor otherwise; on the example list the header row is
discarded and the last company-suffixed token `YY商店` is returned. -/
theorem seller_candidate_selection (ms : List String) :
    buildCandidates ms =
        ms.filter (fun m => !(ignored_keywords.any (fun k => containsSub m k))) ∧
    selectSellerFromMatches ms =
      (if ((ms.filter (fun m => !(ignored_keywords.any (fun k => containsSub m k)))).filter
            (fun c => company_suffixes.any (fun s => containsSub c s))).isEmpty
       then (ms.filter (fun m => !(ignored_keywords.any (fun k => containsSub m k)))).getLast?
       else ((ms.filter (fun m => !(ignored_keywords.any (fun k => containsSub m k)))).filter
            (fun c => company_suffixes.any (fun s => containsSub c s))).getLast?) ∧
    selectSellerFromMatches ["规格型号A", "XX贸易有限公司", "YY商店"] = some "YY商店" := by
  refine ⟨buildCandidates_eq_filter ms, ?_, by decide⟩
  unfold selectSellerFromMatches
  by_cases hms : ms.isEmpty = true
  · have : ms = [] := by cases ms <;> simp_all
    subst this
    simp
  · simp only [Bool.not_eq_true] at hms
    rw [buildCandidates_eq_filter]
    simp only [hms, Bool.false_eq_true, if_false]
    by_cases hcomp :
        ((ms.filter (fun m => !(ignored_keywords.any (fun k => containsSub m k)))).filter
          (fun c => company_suffixes.any (fun s => containsSub c s))).isEmpty = true
    · simp only [hcomp]
      by_cases hcand :
          (ms.filter (fun m => !(ignored_keywords.any (fun k => containsSub m k)))).isEmpty = true
      · have hnil : (ms.filter (fun m => !(ignored_keywords.any (fun k => containsSub m k)))) = [] :=
          List.isEmpty_iff.mp hcand
        rw [hnil]
        rfl
      · have hf : (ms.filter (fun m => !(ignored_keywords.any (fun k => containsSub m k)))).isEmpty
            = false := by
          simpa using hcand
        simp only [hf]
        rfl
    · have hf :
          ((ms.filter (fun m => !(ignored_keywords.any (fun k => containsSub m k)))).filter
            (fun c => company_suffixes.any (fun s => containsSub c s))).isEmpty = false := by
        simpa using hcomp
      simp only [hf]
      rfl

/-- C10: on a concrete first-page text the amount extractor succeeds with a
non-empty string made only of dots, containing no digit at all: the numeric
token class `[\d\.]+` of every tier also matches dot-only strings. -/
theorem amount_dots_only :
    extractAmount "小写..." "小写..." = some "..." ∧
    ("..." : String) ≠ "" ∧
    ("...".toList.all (fun c => c == '.')) = true ∧
    ("...".toList.all (fun c => !c.isDigit)) = true :=
  ⟨by decide, by decide, by decide, by decide⟩

/-- C3 counterexample: `re.match` in the filename builder is a prefix match,
so a date string that does not match the exact `YYYY年MM月DD日` shape (it has
a trailing character) is nevertheless reformatted, with the suffix dropped —
it does not pass through unchanged. -/
theorem date_passthrough_counterexample :
    dateShaped "2024年03月15日X" = false ∧
      formatDate "2024年03月15日X" = "2024.03.15" ∧
      "2024.03.15" ≠ "2024年03月15日X" :=
  ⟨by decide, by decide, by decide⟩

/-- C3 (amended): a first-page text containing the invoice-date label
(nonempty runs of the fuzzy label classes, optional colons and whitespace)
followed by a `YYYY年MM月DD日` token makes the date extractor succeed; every
extracted date is reformatted to the dotted form by the filename builder; and
a date string is passed through unchanged exactly when it does not BEGIN with
the date shape (prefix match, not exact shape). -/
theorem date_extract_format :
    (∀ text : String, (∃ pre s, text.toList = pre ++ s ∧ labelThenDate s) →
      (extractDate text).isSome = true) ∧
    (∀ text d, extractDate text = some d → formatDate d = dotFormat d) ∧
    (∀ d, ¬ beginsWithDateShape d → formatDate d = d) := by
  refine ⟨?_, ?_, ?_⟩
  · rintro text ⟨pre, s, htext, hl⟩
    exact extractDate_complete htext hl
  · intro text d h
    exact (extractDate_sound h).2.2
  · intro d h
    exact formatDate_passthrough h

/-- Witness for C3: the three parts applied at concrete inputs. -/
theorem date_extract_format_witness :
    (extractDate "开票日期:2024年03月15日").isSome = true ∧
      formatDate "2024年03月15日" = dotFormat "2024年03月15日" ∧
      formatDate "废话" = "废话" := by
  refine ⟨?_, ?_, ?_⟩
  · refine date_extract_format.1 "开票日期:2024年03月15日"
      ⟨[], ['开', '票', '日', '期', ':', '2', '0', '2', '4', '年', '0', '3', '月', '1', '5', '日'],
        by decide,
        ['开'], ['票'], ['日'], ['期'], [':'], [],
        ['2', '0', '2', '4', '年', '0', '3', '月', '1', '5', '日'],
        by decide, by decide, by decide, by decide, by decide, by decide, by decide,
        by decide, by decide, by decide, by decide,
        '2', '0', '2', '4', '0', '3', '1', '5', [], rfl, by decide⟩
  · exact date_extract_format.2.1 "开票日期:2024年03月15日" "2024年03月15日" (by decide)
  · refine date_extract_format.2.2 "废话" ?_
    rintro ⟨d1, d2, d3, d4, m1, m2, a1, a2, rest, heq, hd⟩
    simp [String.toList] at heq

/-- C9: every date the extractor returns matches the exact
`\d{4}年\d{2}月\d{2}日` shape, the prefix parse of the filename builder
succeeds on it, and the builder therefore always reformats it to the dotted
form — the pass-through branch is unreachable for extracted dates. -/
theorem extracted_date_shape (text d : String) (h : extractDate text = some d) :
    dateShaped d = true ∧ (parseDatePrefix d.toList).isSome = true ∧
      formatDate d = dotFormat d :=
  extractDate_sound h

/-- Witness for C9 at a concrete extraction. -/
theorem extracted_date_shape_witness :
    extractDate "开 票 日 期：2024年03月15日尾巴" = some "2024年03月15日" ∧
      (dateShaped "2024年03月15日" = true ∧
        (parseDatePrefix "2024年03月15日".toList).isSome = true ∧
        formatDate "2024年03月15日" = dotFormat "2024年03月15日") :=
  ⟨by decide,
    extracted_date_shape "开 票 日 期：2024年03月15日尾巴" "2024年03月15日" (by decide)⟩

/-- C4: a renamed copy is produced if and only if both the extracted date and
the extracted amount are present (their captures are never empty, so Python
truthiness coincides with presence); otherwise the file is skipped with a
diagnostic carrying the date/seller/amount values; and absence of both the
seller and the AI summary never blocks output — the middle component falls
back to the literal placeholder. -/
theorem output_written_iff (pdf : PdfInput) (key : Bool) (summ : Option String) :
    ((∃ name, pipelineProcess pdf key summ = FileAction.written name) ↔
      ((extract_invoice_data pdf).1.isSome = true ∧
        (extract_invoice_data pdf).2.2.1.isSome = true)) ∧
    (¬ ((extract_invoice_data pdf).1.isSome = true ∧
        (extract_invoice_data pdf).2.2.1.isSome = true) →
      pipelineProcess pdf key summ =
        FileAction.skipped (extract_invoice_data pdf).1 (extract_invoice_data pdf).2.1
          (extract_invoice_data pdf).2.2.1) ∧
    (∀ d a, (extract_invoice_data pdf).1 = some d →
      (extract_invoice_data pdf).2.2.1 = some a →
      (extract_invoice_data pdf).2.1 = none → summ = none →
      pipelineProcess pdf key summ =
        FileAction.written (buildFilename (formatDate d) "Unknown" a)) := by
  have hd := extract_date_field_ne_empty pdf
  have ha := extract_amount_field_ne_empty pdf
  have htd : pyTruthy (extract_invoice_data pdf).1 = (extract_invoice_data pdf).1.isSome := by
    cases hr : (extract_invoice_data pdf).1 with
    | none => simp [pyTruthy]
    | some d => simp [pyTruthy, hd d hr]
  have hta : pyTruthy (extract_invoice_data pdf).2.2.1 =
      (extract_invoice_data pdf).2.2.1.isSome := by
    cases hr : (extract_invoice_data pdf).2.2.1 with
    | none => simp [pyTruthy]
    | some a => simp [pyTruthy, ha a hr]
  refine ⟨?_, ?_, ?_⟩
  · unfold pipelineProcess processFile
    rw [htd, hta]
    by_cases h1 : (extract_invoice_data pdf).1.isSome = true <;>
      by_cases h2 : (extract_invoice_data pdf).2.2.1.isSome = true <;>
      simp [h1, h2]
  · intro h
    unfold pipelineProcess processFile
    rw [htd, hta]
    have hcond : ((extract_invoice_data pdf).1.isSome &&
        (extract_invoice_data pdf).2.2.1.isSome) = false := by
      by_cases h1 : (extract_invoice_data pdf).1.isSome = true <;>
        by_cases h2 : (extract_invoice_data pdf).2.2.1.isSome = true <;>
        simp_all
    simp [hcond]
  · intro d a hdd haa hss hsumm
    unfold pipelineProcess processFile
    rw [hdd, haa, hss, hsumm]
    simp [pyTruthy, hd d hdd, ha a haa, middleFallback]

/-- Witness for C4: a file whose first page yields a date and an amount but no
seller, processed without an API key, is written with the placeholder middle
part; a file whose PDF open failed is skipped with the all-absent diagnostic. -/
theorem output_written_iff_witness :
    pipelineProcess (some [some "开票日期:2024年03月15日 小写¥123.45"]) false none =
      FileAction.written (buildFilename (formatDate "2024年03月15日") "Unknown" "123.45") ∧
    pipelineProcess none false none = FileAction.skipped none none none := by
  constructor
  · exact (output_written_iff (some [some "开票日期:2024年03月15日 小写¥123.45"]) false
      none).2.2 "2024年03月15日" "123.45" (by decide) (by decide) (by decide) rfl
  · exact (output_written_iff none false none).2.1 (by decide)

/-- C5 counterexample: the final-filename sanitizer removes only the nine
characters of its class — a raw newline arriving through the middle component
(e.g. from the seller, which is never newline-sanitized) survives into the
assembled filename. -/
theorem filename_newline_counterexample :
    ('\n' ∈ (buildFilename "2024.03.15" "甲\n乙" "99.00").toList) ∧
      buildFilename "2024.03.15" "甲\n乙" "99.00" = "2024.03.15-甲\n乙-99.00.pdf" :=
  ⟨by decide, by decide⟩

/-- C5 (amended): the nine characters are removed (not replaced) from the
assembled filename regardless of the inputs; newline and carriage return are
removed only by the AI-summary sanitizer, not by the final filename
sanitizer, so they can reach the final name through the other components. -/
theorem filename_sanitization :
    (∀ fd mid amt : String, ∀ c, c ∈ (buildFilename fd mid amt).toList →
      c ∉ forbiddenFileChars) ∧
    (∀ s : String, ∀ c, c ∈ (sanitize_summary s).toList →
      c ∉ forbiddenFileChars ∧ c ≠ '\n' ∧ c ≠ '\r') := by
  constructor
  · intro fd mid amt c hc
    simp only [buildFilename, sanitizeFilename, String.toList] at hc
    rw [List.mem_filter] at hc
    intro hmem
    have he : List.elem c forbiddenFileChars = true := List.elem_eq_true_of_mem hmem
    have h2 := hc.2
    rw [show forbiddenFileChars.contains c = List.elem c forbiddenFileChars from rfl] at h2
    rw [he] at h2
    simp at h2
  · intro s c hc
    simp only [sanitize_summary, String.toList] at hc
    rw [List.mem_filter] at hc
    have h2 := hc.2
    simp only [Bool.not_eq_true', Bool.or_eq_false_iff] at h2
    refine ⟨?_, ?_, ?_⟩
    · intro hmem
      have he : List.elem c forbiddenFileChars = true := List.elem_eq_true_of_mem hmem
      have h3 := h2.1.1
      rw [show forbiddenFileChars.contains c = List.elem c forbiddenFileChars from rfl] at h3
      rw [he] at h3
      simp at h3
    · have h3 := h2.1.2
      simpa using h3
    · have h3 := h2.2
      simpa using h3

/-- Witness for C5: the sanitization facts applied at concrete characters of
concrete outputs. -/
theorem filename_sanitization_witness :
    ('a' ∈ (buildFilename "a:" "b/" "c").toList ∧ 'a' ∉ forbiddenFileChars) ∧
      ('x' ∈ (sanitize_summary "x\ny").toList ∧
        ('x' ∉ forbiddenFileChars ∧ 'x' ≠ '\n' ∧ 'x' ≠ '\r')) :=
  ⟨⟨by decide, filename_sanitization.1 "a:" "b/" "c" 'a' (by decide)⟩,
   ⟨by decide, filename_sanitization.2 "x\ny" 'x' (by decide)⟩⟩

/-- Claim-side header-line index of the items section: first line holding the
name label and a column keyword, else first name line that is not a party
line. -/
def headerIdx (lines : List String) : Option Nat :=
  match List.findIdx? isHeaderA lines with
  | some i => some i
  | none => List.findIdx? isHeaderB lines

/-- C6: the items-section extractor returns the original text when no header
line exists; everything after the header when no footer follows it; and the
lines strictly between the header and the first subsequent footer line
otherwise. -/
theorem extract_items_eq (text : String) :
    extract_items_section text =
      match headerIdx (pySplit text "\n") with
      | none => text
      | some i =>
        match (List.findIdx? isFooter ((pySplit text "\n").drop (i + 1))).map
            (fun k => k + (i + 1)) with
        | some j =>
          String.intercalate "\n" (((pySplit text "\n").drop (i + 1)).take (j - (i + 1)))
        | none => String.intercalate "\n" ((pySplit text "\n").drop (i + 1)) := by
  unfold extract_items_section
  simp only [findLineIdx_eq, List.findIdx?_start_succ]
  rfl

theorem items_section_bounds (text : String) :
    (headerIdx (pySplit text "\n") = none → extract_items_section text = text) ∧
    (∀ i, headerIdx (pySplit text "\n") = some i →
      (List.findIdx? isFooter ((pySplit text "\n").drop (i + 1)) = none →
        extract_items_section text =
          String.intercalate "\n" ((pySplit text "\n").drop (i + 1))) ∧
      (∀ k, List.findIdx? isFooter ((pySplit text "\n").drop (i + 1)) = some k →
        extract_items_section text =
          String.intercalate "\n" (((pySplit text "\n").drop (i + 1)).take k))) := by
  constructor
  · intro hnone
    simp only [extract_items_eq, hnone]
  · intro i hi
    constructor
    · intro hfoot
      simp only [extract_items_eq, hi, hfoot, Option.map_none']
    · intro k hk
      simp only [extract_items_eq, hi, hk, Option.map_some']
      simp

/-- Witness for C6: the bounded case with a concrete header and footer. -/
theorem items_section_bounds_witness :
    headerIdx (pySplit "头\n名称 数量\n物品A\n合计 10\n尾" "\n") = some 1 ∧
      List.findIdx? isFooter ((pySplit "头\n名称 数量\n物品A\n合计 10\n尾" "\n").drop 2) =
        some 1 ∧
      extract_items_section "头\n名称 数量\n物品A\n合计 10\n尾" = "物品A" := by
  refine ⟨by decide, by decide, ?_⟩
  have h := ((items_section_bounds "头\n名称 数量\n物品A\n合计 10\n尾").2 1 (by decide)).2 1
    (by decide)
  exact h.trans (by decide)

/-- C7: a raised-and-caught library exception, an empty page list, or a falsy
first-page text all yield the all-absent extraction result (no date, no
seller, no amount, no full text), and the batch loop processes the remaining
files regardless of any file's outcome. -/
theorem parse_failure_absent (pages : List (Option String))
    (rest : List (PdfInput × Option String)) (p : PdfInput) (key : Bool)
    (summ : Option String) :
    extract_invoice_data none = (none, none, none, none) ∧
    (pages.head? = none ∨ pages.head? = some none ∨ pages.head? = some (some "") →
      extract_invoice_data (some pages) = (none, none, none, none)) ∧
    runBatch ((p, summ) :: rest) key = pipelineProcess p key summ :: runBatch rest key := by
  refine ⟨rfl, ?_, rfl⟩
  intro h
  simp only [extract_invoice_data]
  rcases h with h | h | h
  · rw [h]
  · rw [h]
  · rw [h]
    rfl

/-- Witness for C7: the three failure shapes at concrete inputs. -/
theorem parse_failure_absent_witness :
    extract_invoice_data (some []) = (none, none, none, none) ∧
      extract_invoice_data (some [none]) = (none, none, none, none) ∧
      extract_invoice_data (some [some ""]) = (none, none, none, none) :=
  ⟨(parse_failure_absent [] [] none false none).2.1 (Or.inl rfl),
   (parse_failure_absent [none] [] none false none).2.1 (Or.inr (Or.inl rfl)),
   (parse_failure_absent [some ""] [] none false none).2.1 (Or.inr (Or.inr rfl))⟩

/-- C8 counterexample: the empty base URL satisfies the claim's condition (no
version suffix, at most three slashes) yet is passed through unchanged —
the code additionally requires the URL to be truthy. -/
theorem base_url_empty_counterexample :
    normalize_base_url "" = "" ∧ pyEndsWith "" "/v1" = false ∧
      pyEndsWith "" "/v1/" = false ∧ countSlashes "" ≤ 3 ∧
      rstripSlashes "" ++ "/v1" ≠ "" :=
  ⟨rfl, by decide, by decide, by decide, by decide⟩

/-- C8 (amended): for a NON-EMPTY base URL not ending in `/v1` or `/v1/` and
holding at most three slashes, `/v1` is appended after stripping trailing
slashes; an empty URL, a `/v1`-suffixed URL, or one with more than three
slashes passes through unchanged. -/
theorem base_url_normalization (u : String) :
    (u ≠ "" → pyEndsWith u "/v1" = false → pyEndsWith u "/v1/" = false →
      countSlashes u ≤ 3 → normalize_base_url u = rstripSlashes u ++ "/v1") ∧
    (u = "" ∨ pyEndsWith u "/v1" = true ∨ pyEndsWith u "/v1/" = true ∨
        3 < countSlashes u →
      normalize_base_url u = u) := by
  constructor
  · intro h1 h2 h3 h4
    unfold normalize_base_url
    simp [pyTruthy, h1, h2, h3, h4]
  · intro h
    unfold normalize_base_url
    rcases h with h | h | h | h
    · simp [pyTruthy, h]
    · simp [h]
    · simp [h]
    · have hn : ¬ (countSlashes u ≤ 3) := by omega
      simp [hn]

/-- Witness for C8: one URL that is extended and one that is passed through. -/
theorem base_url_normalization_witness :
    normalize_base_url "https://example.com/" = "https://example.com/v1" ∧
      normalize_base_url "https://a.b/c/d/e" = "https://a.b/c/d/e" := by
  constructor
  · have h := (base_url_normalization "https://example.com/").1 (by decide) (by decide)
      (by decide) (by decide)
    exact h.trans (by decide)
  · exact (base_url_normalization "https://a.b/c/d/e").2 (Or.inr (Or.inr (Or.inr (by decide))))

end InvoiceParser
